import Mathlib

/-!
# Spiralverse-AetherMoore: verification of the specified core

Shallow embedding of the repository's core modules:

* `src/src/scbe_engine.py` — the chained-block chaos cipher (`SCBEEngine`).
* `src/src/lws_core.py` — the Langues Weighting System (`LWSEngine`).
* `src/src/aethermoore_geometry.py` — Poincaré-disk geometry
  (`HyperbolicPoint`, `PoincareTransform`).
* `src/src/spiralverse_integration.py` — the authorization protocol
  (`AuthorizationToken`, `SpiralverseSystem`).

Modelling conventions:

* Byte strings are `List Nat` (each entry a byte value).
* The chaos keystream (`ChaosGenerator.generate_stream`), SHA-2/SHA-3
  digests, and the Python `json` library are deterministic external
  computations; they enter the embedding as explicit function parameters,
  so every theorem quantifies over them.  Both sides of a protocol call
  receive the *same* parameter, which is exactly the determinism contract
  of the source (same seed ⇒ same stream, same input ⇒ same digest).
* IEEE-754 doubles of the geometry layer are modelled as real numbers
  where the claim is about the exact-arithmetic invariant.
* A Python exception escaping a function is modelled by `Option.none`.
-/

namespace SCBE

/-- `SCBEConfig.block_size` default (`scbe_engine.py`, line 21). -/
def blockSize : Nat := 16

/-- Pointwise XOR of two byte strings; like Python's
`bytes(a ^ b for a, b in zip(x, y))` it truncates to the shorter input. -/
def xorBytes (a b : List Nat) : List Nat := List.zipWith Nat.xor a b

/-- `SCBEEngine._pad` (lines 148–151): PKCS#7 padding to a multiple of the
block size; the pad length is `block_size - len(data) % block_size`, always
in `[1, block_size]`. -/
def pad (data : List Nat) : List Nat :=
  data ++ List.replicate (blockSize - data.length % blockSize)
    (blockSize - data.length % blockSize)

/-- `SCBEEngine._unpad` (lines 153–156): reads the final byte as the pad
length and slices it off (`data[:-pad_len]`).  There is no validation in
the source: a pad byte of `0` yields `data[:0] = b''`, a pad byte larger
than the length also yields `b''`.  Indexing `data[-1]` on an empty buffer
raises `IndexError`, modelled by `none`. -/
def unpad (data : List Nat) : Option (List Nat) :=
  match data.getLast? with
  | none => none
  | some padLen => some (if padLen = 0 then [] else data.take (data.length - padLen))

/-- Split a byte string into `blockSize`-sized chunks (the final chunk may
be shorter), mirroring `range(0, len(data), block_size)` slicing.  The
first argument is recursion fuel (any value `≥ data.length` is exact). -/
def chunksAux : Nat → List Nat → List (List Nat)
  | 0, _ => []
  | _ + 1, [] => []
  | fuel + 1, b :: bs => (b :: bs).take blockSize :: chunksAux fuel ((b :: bs).drop blockSize)

/-- Block decomposition of a byte string. -/
def chunks (data : List Nat) : List (List Nat) := chunksAux data.length data

/-- The block loop of `SCBEEngine.encrypt` (lines 107–115): each block is
XORed with the previous ciphertext block, then with the next keystream
block `gen i`; the output block becomes the new "previous". -/
def encryptBlocks (gen : Nat → List Nat) : Nat → List Nat → List (List Nat) → List (List Nat)
  | _, _, [] => []
  | i, prev, b :: rest =>
    let e := xorBytes (xorBytes b prev) (gen i)
    e :: encryptBlocks gen (i + 1) e rest

/-- `SCBEEngine.encrypt` (lines 88–117).  The chaos keystream produced by
`ChaosGenerator(actual_key + salt).generate_stream(block_size)` calls is
the parameter `gen` (block `i` of the derived stream); the random IV is
the parameter `iv`.  Output is `iv` followed by the ciphertext blocks. -/
def encrypt (gen : Nat → List Nat) (iv : List Nat) (plaintext : List Nat) : List Nat :=
  iv ++ (encryptBlocks gen 0 iv (chunks (pad plaintext))).flatten

/-- The block loop of `SCBEEngine.decrypt` (lines 136–144): each block is
XORed with the keystream block, then with the previous *ciphertext* block;
the input block becomes the new "previous". -/
def decryptBlocks (gen : Nat → List Nat) : Nat → List Nat → List (List Nat) → List (List Nat)
  | _, _, [] => []
  | i, prev, b :: rest =>
    let d := xorBytes (xorBytes b (gen i)) prev
    d :: decryptBlocks gen (i + 1) b rest

/-- `SCBEEngine.decrypt` (lines 119–146): split off the IV, undo the
keystream and chaining XORs block by block, strip the padding.  Seeding is
deterministic, so the keystream parameter `gen` is the same function that
`encrypt` received for the same key. -/
def decrypt (gen : Nat → List Nat) (ciphertext : List Nat) : Option (List Nat) :=
  let iv := ciphertext.take blockSize
  let data := ciphertext.drop blockSize
  unpad (decryptBlocks gen 0 iv (chunks data)).flatten

end SCBE

namespace LWS

/-- `LWSEngine._build_gematria_map` (`lws_core.py`, lines 88–114): the
Hebrew-to-Latin gematria table — single letters plus the digraphs `ch`,
`ts`, `sh`, `th` — with the `HebrewLetter` enumeration values inlined. -/
def gematria_map : List (String × Nat) :=
  [("a", 1), ("b", 2), ("g", 3), ("d", 4), ("h", 5),
   ("v", 6), ("w", 6), ("z", 7), ("ch", 8), ("t", 9),
   ("y", 10), ("i", 10), ("k", 20), ("c", 20), ("l", 30),
   ("m", 40), ("n", 50), ("s", 60), ("o", 70), ("p", 80),
   ("f", 80), ("ts", 90), ("q", 100), ("r", 200), ("sh", 300),
   ("th", 400), ("e", 5), ("u", 6)]

/-- Table lookup, `self.gematria_map[unit]` with the `in` membership test. -/
def gematriaValue (s : String) : Option Nat := gematria_map.lookup s

/-- The scanning loop of `LWSEngine.compute_gematria` (lines 148–159):
at each position try the two-character digraph first; on a hit consume
both characters, otherwise add the single character's value (`0` when
unmapped) and advance by one. -/
def computeGematriaAux : List Char → Nat
  | [] => 0
  | [c] => (gematriaValue (String.mk [c])).getD 0
  | c1 :: c2 :: rest =>
    match gematriaValue (String.mk [c1, c2]) with
    | some v => v + computeGematriaAux rest
    | none => (gematriaValue (String.mk [c1])).getD 0 + computeGematriaAux (c2 :: rest)

/-- `LWSEngine.compute_gematria` (lines 144–159): lower-case the text and
run the greedy left-to-right scan. -/
def compute_gematria (s : String) : Nat := computeGematriaAux (s.data.map Char.toLower)

/-- Modelled from the spec: `LWSCryptoBinding` is imported by
`spiralverse_integration.py` (line 21) and instantiated over `LWSEngine`,
but its definition is absent from the sources.  Per §4.4 it composes the
engine's scoring with a 32-byte keyed cryptographic hash; the missing
digest primitive is modelled by this executable 32-byte mixing digest. -/
def mixDigest (data : List Nat) : List Nat :=
  (List.range 32).map (fun i =>
    data.foldl (fun acc b => (acc * 131 + b + i) % 256) ((i * 37 + 11) % 256))

/-- UTF-8-agnostic byte view of a string (code points as numbers). -/
def strBytes (s : String) : List Nat := s.data.map Char.toNat

/-- Modelled from the spec: `LWSCryptoBinding.derive_key(passphrase)`
(absent from the sources) — a key derived deterministically from the
passphrase composed with the engine's gematria scoring. -/
def derive_key (passphrase : String) : List Nat :=
  mixDigest (strBytes passphrase ++ [compute_gematria passphrase % 256])

/-- Modelled from the spec: `LWSCryptoBinding.semantic_signature(subject,
key)` (absent from the sources) — a keyed hash over the subject string
composed with the engine's scoring. -/
def semantic_signature (subject : String) (key : List Nat) : List Nat :=
  mixDigest (key ++ strBytes subject ++ [compute_gematria subject % 256])

end LWS

namespace Geometry

noncomputable section

/-- `HyperbolicPoint.__post_init__` (`aethermoore_geometry.py`, lines
26–29): a candidate coordinate of magnitude `≥ 1` is re-projected
radially — `z / (abs(z) + 1e-10) * 0.9999` — to just inside the unit
circle.  The IEEE doubles of the source are modelled as real numbers; the
constructor is the only way a `HyperbolicPoint` coordinate arises. -/
def mkPoint (z : ℂ) : ℂ :=
  if 1 ≤ Complex.abs z then
    z / ((Complex.abs z + 1e-10 : ℝ) : ℂ) * ((0.9999 : ℝ) : ℂ)
  else z

/-- `PoincareTransform.apply` (lines 49–58): the Möbius map
`(az + b) / (cz + d)` with two numerical guards — a fixed fallback point
`0.9999 + 0i` when the denominator magnitude is below `1e-15`, and the
same radial re-projection as the point constructor when the result's
magnitude is `≥ 1`. -/
def applyT (a b c d z : ℂ) : ℂ :=
  if Complex.abs (c * z + d) < 1e-15 then ((0.9999 : ℝ) : ℂ)
  else if 1 ≤ Complex.abs ((a * z + b) / (c * z + d)) then
    (a * z + b) / (c * z + d) /
        ((Complex.abs ((a * z + b) / (c * z + d)) + 1e-10 : ℝ) : ℂ) *
      ((0.9999 : ℝ) : ℂ)
  else (a * z + b) / (c * z + d)

end

end Geometry

namespace Protocol

/-- RFC 4648 alphabet used by Python's `base64.b64encode`/`b64decode`
(`spiralverse_integration.py` token serialization). -/
def b64Alphabet : List Char :=
  ['A', 'B', 'C', 'D', 'E', 'F', 'G', 'H', 'I', 'J', 'K', 'L', 'M',
   'N', 'O', 'P', 'Q', 'R', 'S', 'T', 'U', 'V', 'W', 'X', 'Y', 'Z',
   'a', 'b', 'c', 'd', 'e', 'f', 'g', 'h', 'i', 'j', 'k', 'l', 'm',
   'n', 'o', 'p', 'q', 'r', 's', 't', 'u', 'v', 'w', 'x', 'y', 'z',
   '0', '1', '2', '3', '4', '5', '6', '7', '8', '9', '+', '/']

/-- Character for a 6-bit group. -/
def b64chr (n : Nat) : Char := b64Alphabet.getD n 'A'

/-- Index of a base64 character (none for anything outside the alphabet,
in particular for the pad character). -/
def b64idx (c : Char) : Option Nat := b64Alphabet.findIdx? (fun x => x == c)

/-- Standard base64 encoding of a byte string, processed three bytes at a
time with `=` padding; the first argument is recursion fuel (any value
`≥` the byte count is exact). -/
def b64encodeAux : Nat → List Nat → List Char
  | 0, _ => []
  | _ + 1, [] => []
  | _ + 1, [a] => [b64chr (a / 4), b64chr (a % 4 * 16), '=', '=']
  | _ + 1, [a, b] =>
    [b64chr (a / 4), b64chr (a % 4 * 16 + b / 16), b64chr (b % 16 * 4), '=']
  | fuel + 1, a :: b :: c :: rest =>
    b64chr (a / 4) :: b64chr (a % 4 * 16 + b / 16) :: b64chr (b % 16 * 4 + c / 64) ::
      b64chr (c % 64) :: b64encodeAux fuel rest

/-- `base64.b64encode` over byte strings. -/
def b64encode (bs : List Nat) : List Char := b64encodeAux bs.length bs

/-- Standard base64 decoding, four characters at a time; malformed input
(bad length, character outside the alphabet, misplaced pad) is `none`,
modelling the `binascii.Error` exception. -/
def b64decodeAux : Nat → List Char → Option (List Nat)
  | _, [] => some []
  | fuel + 1, c1 :: c2 :: c3 :: c4 :: rest =>
    if c3 = '=' ∧ c4 = '=' ∧ rest = [] then
      match b64idx c1, b64idx c2 with
      | some s1, some s2 => some [s1 * 4 + s2 / 16]
      | _, _ => none
    else if c4 = '=' ∧ rest = [] then
      match b64idx c1, b64idx c2, b64idx c3 with
      | some s1, some s2, some s3 => some [s1 * 4 + s2 / 16, s2 % 16 * 16 + s3 / 4]
      | _, _, _ => none
    else
      match b64idx c1, b64idx c2, b64idx c3, b64idx c4 with
      | some s1, some s2, some s3, some s4 =>
        (b64decodeAux fuel rest).map
          (fun tail =>
            (s1 * 4 + s2 / 16) :: (s2 % 16 * 16 + s3 / 4) :: (s3 % 4 * 64 + s4) :: tail)
      | _, _, _, _ => none
  | _, _ => none

/-- `base64.b64decode` over character strings. -/
def b64decode (cs : List Char) : Option (List Nat) := b64decodeAux cs.length cs

/-- `AuthorizationToken` (`spiralverse_integration.py`, lines 24–32); the
float timestamp is modelled as a rational (Python float-to-JSON
round-tripping is exact via `repr`). -/
structure AuthorizationToken where
  token_id : String
  subject : String
  timestamp : ℚ
  geometric_signature : List Nat
  semantic_binding : List Nat
  encrypted_payload : List Nat
deriving DecidableEq

/-- JSON values as produced by `AuthorizationToken.to_dict`: strings,
numbers, and objects (Python dicts keep insertion order). -/
inductive Json where
  | str : String → Json
  | num : ℚ → Json
  | obj : List (String × Json) → Json

/-- `AuthorizationToken.to_dict` (lines 34–42): the three byte fields are
nested as base64 strings. -/
def to_dict (t : AuthorizationToken) : Json :=
  Json.obj
    [("token_id", Json.str t.token_id),
     ("subject", Json.str t.subject),
     ("timestamp", Json.num t.timestamp),
     ("geometric_signature", Json.str (String.mk (b64encode t.geometric_signature))),
     ("semantic_binding", Json.str (String.mk (b64encode t.semantic_binding))),
     ("encrypted_payload", Json.str (String.mk (b64encode t.encrypted_payload)))]

/-- `AuthorizationToken.from_dict` (lines 44–53): read the six keys back,
base64-decoding the three byte fields; a missing key, wrong shape, or
malformed base64 (a `KeyError`/`binascii.Error` in Python) is `none`. -/
def from_dict (j : Json) : Option AuthorizationToken :=
  match j with
  | Json.obj kvs =>
    match kvs.lookup "token_id", kvs.lookup "subject", kvs.lookup "timestamp",
        kvs.lookup "geometric_signature", kvs.lookup "semantic_binding",
        kvs.lookup "encrypted_payload" with
    | some (Json.str tid), some (Json.str subj), some (Json.num ts),
        some (Json.str gs), some (Json.str sb), some (Json.str ep) =>
      match b64decode gs.data, b64decode sb.data, b64decode ep.data with
      | some g, some s, some e => some ⟨tid, subj, ts, g, s, e⟩
      | _, _, _ => none
    | _, _, _, _, _, _ => none
  | _ => none

/-- `SpiralverseSystem.export_token` (lines 143–147):
`base64.b64encode(json.dumps(token.to_dict()).encode())`.  The JSON text
serializer of the standard library is the parameter `dumps` (a
deterministic external function producing UTF-8 bytes). -/
def export_token (dumps : Json → List Nat) (t : AuthorizationToken) : List Char :=
  b64encode (dumps (to_dict t))

/-- `SpiralverseSystem.import_token` (lines 149–152):
`AuthorizationToken.from_dict(json.loads(base64.b64decode(s).decode()))`.
The JSON text parser is the parameter `loads`. -/
def import_token (loads : List Nat → Option Json) (s : List Char) :
    Option AuthorizationToken :=
  match b64decode s with
  | none => none
  | some bytes =>
    match loads bytes with
    | none => none
    | some j => from_dict j

/-- Byte fields of a token are genuine byte strings (every entry below
256); true of every token the system constructs. -/
def ValidToken (t : AuthorizationToken) : Prop :=
  (∀ x ∈ t.geometric_signature, x < 256) ∧ (∀ x ∈ t.semantic_binding, x < 256) ∧
    (∀ x ∈ t.encrypted_payload, x < 256)

/-- `SpiralverseSystem.verify_authorization` (lines 112–141), with the
system's deterministic components passed explicitly: `lwsDeriveKey` and
`semanticSig` are `LWSCryptoBinding.derive_key`/`semantic_signature`;
`combinedKey semantic_key geo16` is
`sha256(self.derived_key + semantic_key + geo16)` with the long-term
derived key folded in; `decryptF key ct` is `SCBEEngine.decrypt` (`none`
for an exception); `jsonLoads` parses the decrypted bytes; `integrity`
recomputes the subject's trajectory and runs
`verify_trajectory_integrity`.  Source order is kept: the binding
comparison precedes key reconstruction and decryption. -/
def verify_authorization
    (lwsDeriveKey : String → List Nat)
    (semanticSig : String → List Nat → List Nat)
    (combinedKey : List Nat → List Nat → List Nat)
    (decryptF : List Nat → List Nat → Option (List Nat))
    (jsonLoads : List Nat → Option Json)
    (integrity : String → Bool)
    (token : AuthorizationToken) (passphrase : String) : Bool × Option Json :=
  if (semanticSig token.subject (lwsDeriveKey passphrase)).take 32 ≠ token.semantic_binding then
    (false, none)
  else
    match decryptF (combinedKey (lwsDeriveKey passphrase) (token.geometric_signature.take 16))
        token.encrypted_payload with
    | none => (false, none)
    | some plain =>
      match jsonLoads plain with
      | none => (false, none)
      | some payload =>
        if integrity token.subject then (true, some payload) else (false, none)

end Protocol

namespace SCBE

lemma xorBytes_length (a b : List Nat) : (xorBytes a b).length = min a.length b.length := by
  simp [xorBytes]

lemma xorBytes_cancel (a b : List Nat) (h : a.length = b.length) :
    xorBytes (xorBytes a b) b = a := by
  induction a generalizing b with
  | nil => simp [xorBytes]
  | cons x xs ih =>
    cases b with
    | nil => simp at h
    | cons y ys =>
      simp only [List.length_cons, Nat.add_right_cancel_iff] at h
      simp only [xorBytes, List.zipWith] at *
      refine congrArg₂ List.cons ?_ (ih ys h)
      exact Nat.xor_cancel_right y x

lemma chunksAux_spec (fuel : Nat) :
    ∀ data : List Nat, data.length ≤ fuel → data.length % blockSize = 0 →
      (chunksAux fuel data).flatten = data ∧ ∀ b ∈ chunksAux fuel data, b.length = blockSize := by
  induction fuel with
  | zero =>
    intro data hf _
    have hnil : data = [] := List.eq_nil_of_length_eq_zero (Nat.le_zero.mp hf)
    subst hnil
    simp [chunksAux]
  | succ fuel ih =>
    intro data hf hm
    cases data with
    | nil => simp [chunksAux]
    | cons x xs =>
      have hge : blockSize ≤ (x :: xs).length := by
        simp only [blockSize] at hm ⊢
        simp only [List.length_cons] at hm ⊢
        omega
      have hdf : ((x :: xs).drop blockSize).length ≤ fuel := by
        simp only [List.length_drop]
        simp only [List.length_cons] at hf ⊢
        simp only [blockSize] at hge ⊢
        simp only [List.length_cons] at hge
        omega
      have hdm : ((x :: xs).drop blockSize).length % blockSize = 0 := by
        simp only [List.length_drop]
        simp only [blockSize] at hm hge ⊢
        simp only [List.length_cons] at hm hge ⊢
        omega
      obtain ⟨ih1, ih2⟩ := ih _ hdf hdm
      refine ⟨?_, ?_⟩
      · simp only [chunksAux, List.flatten_cons, ih1]
        exact List.take_append_drop blockSize (x :: xs)
      · intro b hb
        simp only [chunksAux, List.mem_cons] at hb
        rcases hb with hb | hb
        · subst hb
          simp only [List.length_take]
          omega
        · exact ih2 b hb

lemma chunks_spec (data : List Nat) (hm : data.length % blockSize = 0) :
    (chunks data).flatten = data ∧ ∀ b ∈ chunks data, b.length = blockSize :=
  chunksAux_spec data.length data le_rfl hm

lemma chunksAux_of_blocks (bls : List (List Nat)) :
    ∀ fuel : Nat, bls.flatten.length ≤ fuel → (∀ b ∈ bls, b.length = blockSize) →
      chunksAux fuel bls.flatten = bls := by
  induction bls with
  | nil =>
    intro fuel _ _
    cases fuel <;> simp [chunksAux]
  | cons b rest ih =>
    intro fuel hf hb
    have hbl : b.length = blockSize := hb b (by simp)
    cases fuel with
    | zero =>
      exfalso
      simp only [List.flatten_cons, List.length_append, hbl, blockSize] at hf
      omega
    | succ fuel =>
      cases b with
      | nil => simp [blockSize] at hbl
      | cons y ys =>
        show chunksAux (fuel + 1) ((y :: ys) ++ rest.flatten) = (y :: ys) :: rest
        rw [List.cons_append]
        show ((y :: (ys ++ rest.flatten)).take blockSize) ::
            chunksAux fuel ((y :: (ys ++ rest.flatten)).drop blockSize) = (y :: ys) :: rest
        rw [← List.cons_append, List.take_left' hbl, List.drop_left' hbl]
        refine congrArg _ (ih fuel ?_ ?_)
        · simp only [List.flatten_cons, List.length_append, hbl, blockSize] at hf
          omega
        · intro c hc
          exact hb c (by simp [hc])

lemma chunks_of_blocks (bls : List (List Nat)) (hb : ∀ b ∈ bls, b.length = blockSize) :
    chunks bls.flatten = bls :=
  chunksAux_of_blocks bls bls.flatten.length le_rfl hb

lemma encryptBlocks_length (gen : Nat → List Nat) (hgen : ∀ j, (gen j).length = blockSize) :
    ∀ (bls : List (List Nat)) (i : Nat) (prev : List Nat), prev.length = blockSize →
      (∀ b ∈ bls, b.length = blockSize) →
      ∀ e ∈ encryptBlocks gen i prev bls, e.length = blockSize := by
  intro bls
  induction bls with
  | nil =>
    intro i prev _ _ e he
    simp [encryptBlocks] at he
  | cons b rest ih =>
    intro i prev hprev hb e he
    have hbl : b.length = blockSize := hb b (by simp)
    have hel : (xorBytes (xorBytes b prev) (gen i)).length = blockSize := by
      simp [xorBytes_length, hbl, hprev, hgen i]
    simp only [encryptBlocks, List.mem_cons] at he
    rcases he with he | he
    · rw [he]; exact hel
    · exact ih (i + 1) _ hel (fun c hc => hb c (by simp [hc])) e he

lemma decryptBlocks_encryptBlocks (gen : Nat → List Nat)
    (hgen : ∀ j, (gen j).length = blockSize) :
    ∀ (bls : List (List Nat)) (i : Nat) (prev : List Nat), prev.length = blockSize →
      (∀ b ∈ bls, b.length = blockSize) →
      decryptBlocks gen i prev (encryptBlocks gen i prev bls) = bls := by
  intro bls
  induction bls with
  | nil => intro i prev _ _; rfl
  | cons b rest ih =>
    intro i prev hprev hb
    have hbl : b.length = blockSize := hb b (by simp)
    have hxl : (xorBytes b prev).length = (gen i).length := by
      simp [xorBytes_length, hbl, hprev, hgen i]
    have hel : (xorBytes (xorBytes b prev) (gen i)).length = blockSize := by
      simp [xorBytes_length, hbl, hprev, hgen i]
    simp only [encryptBlocks, decryptBlocks]
    refine congrArg₂ List.cons ?_ (ih (i + 1) _ hel (fun c hc => hb c (by simp [hc])))
    rw [xorBytes_cancel _ _ hxl, xorBytes_cancel _ _ (by rw [hbl, hprev])]

lemma unpad_pad (p : List Nat) : unpad (pad p) = some p := by
  have hmod : p.length % blockSize < blockSize := Nat.mod_lt _ (by simp [blockSize])
  have hk1 : 1 ≤ blockSize - p.length % blockSize := by omega
  obtain ⟨m, hm⟩ : ∃ m, blockSize - p.length % blockSize = m + 1 :=
    ⟨blockSize - p.length % blockSize - 1, by omega⟩
  unfold pad unpad
  rw [hm, List.replicate_succ', ← List.append_assoc, List.getLast?_concat]
  show some (if m + 1 = 0 then [] else
      List.take ((p ++ List.replicate m (m + 1) ++ [m + 1]).length - (m + 1))
        (p ++ List.replicate m (m + 1) ++ [m + 1])) = some p
  rw [if_neg (Nat.succ_ne_zero m)]
  have hlen : (p ++ List.replicate m (m + 1) ++ [m + 1]).length - (m + 1) = p.length := by
    simp only [List.length_append, List.length_replicate, List.length_cons, List.length_nil]
    omega
  rw [hlen, List.append_assoc]
  exact congrArg some (List.take_left' rfl)

/-- C2: for every keystream (the byte blocks a `ChaosGenerator` seeded
from a `derive_key` output produces — `decrypt` re-derives the identical
stream because seeding is deterministic), every IV, and every plaintext
byte string (including the empty one), `decrypt (encrypt p) = p`. -/
theorem decrypt_encrypt (gen : Nat → List Nat) (iv p : List Nat)
    (hgen : ∀ i, (gen i).length = blockSize) (hiv : iv.length = blockSize) :
    decrypt gen (encrypt gen iv p) = some p := by
  have hpadmod : (pad p).length % blockSize = 0 := by
    have hmod : p.length % blockSize < blockSize := Nat.mod_lt _ (by simp [blockSize])
    simp only [pad, List.length_append, List.length_replicate, blockSize] at *
    omega
  obtain ⟨hflat, hblocks⟩ := chunks_spec (pad p) hpadmod
  have hElen : ∀ e ∈ encryptBlocks gen 0 iv (chunks (pad p)), e.length = blockSize :=
    encryptBlocks_length gen hgen _ 0 iv hiv hblocks
  show unpad (decryptBlocks gen 0
      ((iv ++ (encryptBlocks gen 0 iv (chunks (pad p))).flatten).take blockSize)
      (chunks ((iv ++ (encryptBlocks gen 0 iv (chunks (pad p))).flatten).drop
        blockSize))).flatten = some p
  rw [List.take_left' hiv, List.drop_left' hiv, chunks_of_blocks _ hElen,
    decryptBlocks_encryptBlocks gen hgen _ 0 iv hiv hblocks, hflat]
  exact unpad_pad p

/-- Witness for C2 at a concrete keystream, IV and plaintext. -/
theorem decrypt_encrypt_witness :
    decrypt (fun _ => List.replicate 16 0)
      (encrypt (fun _ => List.replicate 16 0) (List.replicate 16 0) [1, 2, 3]) =
      some [1, 2, 3] :=
  decrypt_encrypt _ _ _ (fun _ => by simp [blockSize]) (by simp [blockSize])

/-- C3: the source `_unpad` performs no validation at all.  A trailing
pad byte of `0` makes `data[:-0] = data[:0]` return the empty byte string,
a pad byte exceeding the data length also returns the empty byte string,
and a full `decrypt` call whose final decrypted byte is `0` returns a
value (`b''`) instead of failing with `PaddingError` — no `PaddingError`
exists anywhere in the code. -/
theorem unpad_no_padding_validation :
    unpad [1, 2, 0] = some [] ∧ unpad [5, 5, 17] = some [] ∧
      decrypt (fun _ => List.replicate 16 0) (List.replicate 32 0) = some [] := by
  decide

/-- C10: for every keystream and every ciphertext of at most
`block_size` bytes (in particular the empty byte string), the payload part
after the IV is empty, so `_unpad` indexes `data[-1]` on an empty buffer
and raises `IndexError`: `decrypt` fails (returns no value). -/
theorem decrypt_short_ciphertext_none (gen : Nat → List Nat) (ct : List Nat)
    (h : ct.length ≤ blockSize) : decrypt gen ct = none := by
  have hd : ct.drop blockSize = [] := List.drop_eq_nil_of_le h
  simp [decrypt, hd, chunks, chunksAux, decryptBlocks, unpad]

/-- Witness for C10 at the empty ciphertext. -/
theorem decrypt_short_ciphertext_none_witness :
    decrypt (fun _ => []) [] = none :=
  decrypt_short_ciphertext_none _ _ (by simp [blockSize])

end SCBE

namespace LWS

/-- C9: `compute_gematria("ab")` equals the sum of the values mapped to
`'a'` and `'b'` (no digraph `"ab"` exists in the table), while a text that
does start with a digraph — `"ch"` — scores the digraph value `8` rather
than the single-letter sum `20 + 5`, exhibiting the greedy two-letter
preference of the left-to-right scan. -/
theorem compute_gematria_greedy_scan :
    compute_gematria "ab" = (gematriaValue "a").getD 0 + (gematriaValue "b").getD 0 ∧
      gematriaValue "ab" = none ∧
      gematriaValue "a" = some 1 ∧ gematriaValue "b" = some 2 ∧
      compute_gematria "ab" = 3 ∧
      compute_gematria "ch" = 8 ∧ gematriaValue "ch" = some 8 := by
  decide

/-- C6: the binding derivation exposes `derive_key` and
`semantic_signature`, and two runs over identical `(subject, passphrase)`
inputs produce the identical 32-byte binding — the derivation is a pure
function of its inputs with no salt, randomness or time dependence. -/
theorem semantic_binding_deterministic (s p s' p' : String)
    (hs : s = s') (hp : p = p') :
    (semantic_signature s (derive_key p)).length = 32 ∧
      semantic_signature s (derive_key p) = semantic_signature s' (derive_key p') := by
  subst hs
  subst hp
  exact ⟨by simp [semantic_signature, mixDigest], rfl⟩

/-- Witness for C6 at concrete subject and passphrase strings. -/
theorem semantic_binding_deterministic_witness :
    (semantic_signature "user" (derive_key "pw")).length = 32 ∧
      semantic_signature "user" (derive_key "pw") =
        semantic_signature "user" (derive_key "pw") :=
  semantic_binding_deterministic "user" "pw" "user" "pw" rfl rfl

end LWS

namespace Geometry

lemma abs_reproject_lt_one (w : ℂ) :
    Complex.abs (w / ((Complex.abs w + 1e-10 : ℝ) : ℂ) * ((0.9999 : ℝ) : ℂ)) < 1 := by
  have h0 : (0 : ℝ) ≤ Complex.abs w := Complex.abs.nonneg w
  have hd : (0 : ℝ) < Complex.abs w + 1e-10 := by
    have : (0 : ℝ) < 1e-10 := by norm_num
    linarith
  rw [map_mul, map_div₀, Complex.abs_ofReal, Complex.abs_ofReal,
    abs_of_pos hd, abs_of_pos (by norm_num : (0 : ℝ) < 0.9999),
    div_mul_eq_mul_div, div_lt_one hd]
  nlinarith

/-- C7: every coordinate produced by the `HyperbolicPoint` constructor and
every value returned by `PoincareTransform.apply` has magnitude strictly
below `1`: boundary-or-beyond candidates are re-projected just inside the
boundary and the near-zero-denominator fallback sits at `0.9999`, so the
open-disk invariant holds at all times. -/
theorem disk_invariant (a b c d z : ℂ) :
    Complex.abs (mkPoint z) < 1 ∧ Complex.abs (applyT a b c d z) < 1 := by
  constructor
  · unfold mkPoint
    split
    · exact abs_reproject_lt_one z
    · next h => exact lt_of_not_le h
  · unfold applyT
    split
    · rw [Complex.abs_ofReal, abs_of_pos (by norm_num : (0 : ℝ) < 0.9999)]
      norm_num
    · split
      · exact abs_reproject_lt_one _
      · next h => exact lt_of_not_le h

end Geometry

namespace Protocol

lemma b64idx_b64chr : ∀ n < 64, b64idx (b64chr n) = some n := by decide

lemma b64chr_ne_pad : ∀ n < 64, b64chr n ≠ '=' := by decide

lemma b64_roundtrip_aux (fuel : Nat) :
    ∀ bs : List Nat, bs.length ≤ fuel → (∀ x ∈ bs, x < 256) →
      ∀ fuel2 : Nat, (b64encodeAux fuel bs).length ≤ fuel2 →
        b64decodeAux fuel2 (b64encodeAux fuel bs) = some bs := by
  induction fuel with
  | zero =>
    intro bs hf _ fuel2 _
    have hnil : bs = [] := List.eq_nil_of_length_eq_zero (Nat.le_zero.mp hf)
    subst hnil
    cases fuel2 <;> rfl
  | succ fuel ih =>
    intro bs hf hlt fuel2 hf2
    cases bs with
    | nil => cases fuel2 <;> rfl
    | cons a rest1 =>
      cases rest1 with
      | nil =>
        have ha : a < 256 := hlt a (by simp)
        cases fuel2 with
        | zero => simp [b64encodeAux] at hf2
        | succ f2 =>
          simp only [b64encodeAux, b64decodeAux]
          rw [if_pos (by simp), b64idx_b64chr _ (by omega), b64idx_b64chr _ (by omega)]
          simp only [Option.some.injEq, List.cons.injEq, and_true]
          simp
          omega
      | cons b rest2 =>
        cases rest2 with
        | nil =>
          have ha : a < 256 := hlt a (by simp)
          have hb : b < 256 := hlt b (by simp)
          cases fuel2 with
          | zero => simp [b64encodeAux] at hf2
          | succ f2 =>
            simp only [b64encodeAux, b64decodeAux]
            rw [if_neg (fun h => b64chr_ne_pad _ (by omega) h.1),
              if_pos (by simp), b64idx_b64chr _ (by omega),
              b64idx_b64chr _ (by omega), b64idx_b64chr _ (by omega)]
            simp
            omega
        | cons c rest =>
          have ha : a < 256 := hlt a (by simp)
          have hb : b < 256 := hlt b (by simp)
          have hc : c < 256 := hlt c (by simp)
          cases fuel2 with
          | zero => simp [b64encodeAux] at hf2
          | succ f2 =>
            simp only [b64encodeAux, b64decodeAux]
            rw [if_neg (fun h => b64chr_ne_pad _ (by omega) h.1),
              if_neg (fun h => b64chr_ne_pad _ (by omega) h.1),
              b64idx_b64chr _ (by omega), b64idx_b64chr _ (by omega),
              b64idx_b64chr _ (by omega), b64idx_b64chr _ (by omega)]
            have hrest : b64decodeAux f2 (b64encodeAux fuel rest) = some rest := by
              refine ih rest ?_ (fun x hx => hlt x (by simp [hx])) f2 ?_
              · simp only [List.length_cons] at hf
                omega
              · simp only [b64encodeAux, List.length_cons] at hf2
                omega
            simp [hrest]
            omega

/-- Round trip of the base64 codec on genuine byte strings. -/
lemma b64decode_b64encode (bs : List Nat) (h : ∀ x ∈ bs, x < 256) :
    b64decode (b64encode bs) = some bs :=
  b64_roundtrip_aux bs.length bs le_rfl h (b64encodeAux bs.length bs).length le_rfl

lemma from_dict_to_dict (t : AuthorizationToken) (hv : ValidToken t) :
    from_dict (to_dict t) = some t := by
  obtain ⟨hg, hs, he⟩ := hv
  simp only [to_dict, from_dict, List.lookup, String.reduceBEq, beq_self_eq_true]
  rw [b64decode_b64encode _ hg, b64decode_b64encode _ hs, b64decode_b64encode _ he]

/-- C8: `import_token (export_token token)` returns the token
field-for-field, and the exported form is exactly the base64 encoding of
the UTF-8 JSON object with keys `token_id`, `subject`, `timestamp`,
`geometric_signature`, `semantic_binding`, `encrypted_payload`, the three
byte fields nested as base64 strings.  The standard-library JSON text
codec appears as the `dumps`/`loads` pair, assumed only to produce bytes
and to parse back the one document exported here. -/
theorem import_export_roundtrip (dumps : Json → List Nat) (loads : List Nat → Option Json)
    (t : AuthorizationToken) (hv : ValidToken t)
    (hbytes : ∀ x ∈ dumps (to_dict t), x < 256)
    (hloads : loads (dumps (to_dict t)) = some (to_dict t)) :
    import_token loads (export_token dumps t) = some t ∧
      export_token dumps t =
        b64encode (dumps (Json.obj
          [("token_id", Json.str t.token_id),
           ("subject", Json.str t.subject),
           ("timestamp", Json.num t.timestamp),
           ("geometric_signature", Json.str (String.mk (b64encode t.geometric_signature))),
           ("semantic_binding", Json.str (String.mk (b64encode t.semantic_binding))),
           ("encrypted_payload", Json.str (String.mk (b64encode t.encrypted_payload)))])) := by
  refine ⟨?_, rfl⟩
  simp only [import_token, export_token]
  rw [b64decode_b64encode _ hbytes]
  show (match loads (dumps (to_dict t)) with
    | none => none
    | some j => from_dict j) = some t
  rw [hloads]
  exact from_dict_to_dict t hv

/-- Witness for C8 at a concrete token and a concrete codec pair. -/
theorem import_export_roundtrip_witness :
    import_token (fun _ => some (to_dict ⟨"id1", "alice", 0, [7], [8], [9]⟩))
        (export_token (fun _ => [107]) ⟨"id1", "alice", 0, [7], [8], [9]⟩) =
      some ⟨"id1", "alice", 0, [7], [8], [9]⟩ :=
  (import_export_roundtrip (fun _ => [107])
    (fun _ => some (to_dict ⟨"id1", "alice", 0, [7], [8], [9]⟩))
    ⟨"id1", "alice", 0, [7], [8], [9]⟩
    (by refine ⟨?_, ?_, ?_⟩ <;> simp)
    (by simp) rfl).1

/-- C5: when the first 32 bytes of the recomputed semantic signature
differ from the stored `semantic_binding`, `verify_authorization` returns
`(False, None)` for *every* key-reconstruction function and *every*
decryption function — the result does not depend on them, so no key is
reconstructed and no decryption is attempted. -/
theorem verify_binding_mismatch (lwsDeriveKey : String → List Nat)
    (semanticSig : String → List Nat → List Nat)
    (combinedKey : List Nat → List Nat → List Nat)
    (decryptF : List Nat → List Nat → Option (List Nat))
    (jsonLoads : List Nat → Option Json)
    (integrity : String → Bool)
    (token : AuthorizationToken) (passphrase : String)
    (hmis : (semanticSig token.subject (lwsDeriveKey passphrase)).take 32 ≠
      token.semantic_binding) :
    verify_authorization lwsDeriveKey semanticSig combinedKey decryptF jsonLoads integrity
      token passphrase = (false, none) := by
  simp only [verify_authorization, if_pos hmis]

/-- Witness for C5 at a concrete token whose stored binding differs from
the recomputed signature. -/
theorem verify_binding_mismatch_witness :
    verify_authorization (fun _ => []) (fun _ _ => []) (fun _ _ => [])
        (fun _ _ => none) (fun _ => none) (fun _ => false)
        ⟨"id", "sub", 0, [], [1], []⟩ "pw" = (false, none) :=
  verify_binding_mismatch _ _ _ _ _ _ _ _ (by decide)

end Protocol
